import Mathlib

/-!
Shallow embedding of the artifact-ingestion and filesystem-boundary layer of
the SDlab viewer (`src/lib/comfyui-types.ts`, `src/lib/comfyui-path.ts`,
`src/lib/comfyui-fs.ts`).

Strings are modelled as `List Char` (JS strings are sequences of code units;
every input under verification is plain text).  The Node `path.posix`
primitives used by the source (`normalize`, `resolve`, `join`) are embedded
following their documented semantics.  The model targets the POSIX platform
branch of the source (`process.platform ≠ "win32"`): `toComparablePath` is the
identity and `path.sep` is `'/'`.  Fallible functions (the source throws
`Error`) return `Except`.
-/

namespace SDLab

/-- Strings are modelled as lists of characters. -/
abbrev Str := List Char

/-- The JS `String.prototype.trim` whitespace class: WhiteSpace and
LineTerminator code points of ECMA-262. -/
def isJsWhitespace (c : Char) : Bool :=
  c.toNat == 9 || c.toNat == 10 || c.toNat == 11 || c.toNat == 12 ||
  c.toNat == 13 || c.toNat == 32 || c.toNat == 0xa0 || c.toNat == 0x1680 ||
  (0x2000 ≤ c.toNat && c.toNat ≤ 0x200a) || c.toNat == 0x2028 ||
  c.toNat == 0x2029 || c.toNat == 0x202f || c.toNat == 0x205f ||
  c.toNat == 0x3000 || c.toNat == 0xfeff

/-- JS `value.trim()`: strip leading and trailing whitespace. -/
def jsTrim (s : Str) : Str :=
  ((s.dropWhile isJsWhitespace).reverse.dropWhile isJsWhitespace).reverse

/-- Rejection reasons of the path/run-dir validators in `comfyui-path.ts`;
one constructor per distinct `throw new Error(...)` site. -/
inductive PathError where
  /-- `"<field> must not be empty"` from `assertNonEmptyTrimmed`. -/
  | emptyField (field : Str)
  /-- `"imagePath must not contain null bytes"`. -/
  | nullByte
  /-- `"imagePath must not contain URL-encoded characters"`. -/
  | encodedChars
  /-- `"imagePath must not contain backslashes"`. -/
  | backslash
  /-- `"imagePath must be relative"`. -/
  | absolutePath
  /-- `"imagePath must not contain a drive letter"`. -/
  | driveLetter
  /-- `"imagePath must not contain empty segments"`. -/
  | emptySegment
  /-- `"imagePath must not contain dot segments"`. -/
  | dotSegment
  /-- `"imagePath escapes the expected relative scope"`. -/
  | escapesScope
  /-- `"Invalid runDir format"`. -/
  | invalidRunDirFormat
  /-- `"runDir is not in allowlist"`. -/
  | notInAllowlist
  /-- `"Resolved path escapes root"`. -/
  | rootEscape
deriving DecidableEq, Repr

/-- `RUN_DIR_REGEX = /^run-\d{8}T\d{6}Z$/` from `comfyui-types.ts`:
`run-` + 8 digits + `T` + 6 digits + `Z`. -/
def isValidRunDir (s : Str) : Bool :=
  s.length == 20 && s.take 4 == [ 'r', 'u', 'n', '-'] &&
  ((s.drop 4).take 8).all Char.isDigit &&
  (s.drop 12).take 1 == [ 'T'] &&
  ((s.drop 13).take 6).all Char.isDigit &&
  s.drop 19 == [ 'Z']

/-- `assertNonEmptyTrimmed` from `comfyui-path.ts`: trim, reject when empty. -/
def assertNonEmptyTrimmed (value fieldName : Str) : Except PathError Str :=
  let trimmed := jsTrim value
  if trimmed.length = 0 then .error (.emptyField fieldName)
  else .ok trimmed

/-- Node `path.posix.isAbsolute`: nonempty and starts with `/`. -/
def posixIsAbsolute (s : Str) : Bool :=
  s.head? == some '/'

/-- Node `path.win32`'s path-separator class: `/` or `\`. -/
def isWin32PathSeparator (c : Char) : Bool :=
  c == '/' || c == '\\'

/-- Node `path.win32.isAbsolute`: a leading separator, or a drive root such as
`C:/` (letter, colon, separator). -/
def win32IsAbsolute (s : Str) : Bool :=
  match s with
  | [] => false
  | c0 :: rest =>
    isWin32PathSeparator c0 ||
      (match rest with
       | c1 :: c2 :: _ => c0.isAlpha && c1 == ':' && isWin32PathSeparator c2
       | _ => false)

/-- `WINDOWS_DRIVE_LETTER_PREFIX = /^[a-zA-Z]:/` from `comfyui-path.ts`. -/
def hasWindowsDriveLetter (s : Str) : Bool :=
  match s with
  | c0 :: c1 :: _ => c0.isAlpha && c1 == ':'
  | _ => false

/-- Segment resolution loop of Node's internal `normalizeString` (shared by
`path.posix.normalize` and `path.posix.resolve`): drop empty and `.` segments;
`..` pops the previous segment, or is kept (when `allowAboveRoot`) if there is
nothing left to pop or the previous kept segment is itself `..`. -/
def normSegs (allowAboveRoot : Bool) (acc : List Str) : List Str → List Str
  | [] => acc
  | seg :: rest =>
    if seg = [] ∨ seg = [ '.'] then normSegs allowAboveRoot acc rest
    else if seg = [ '.', '.'] then
      if acc ≠ [] ∧ acc.getLast? ≠ some [ '.', '.'] then
        normSegs allowAboveRoot acc.dropLast rest
      else if allowAboveRoot then
        normSegs allowAboveRoot (acc ++ [[ '.', '.']]) rest
      else
        normSegs allowAboveRoot acc rest
    else normSegs allowAboveRoot (acc ++ [seg]) rest

/-- Node's internal `normalizeString path allowAboveRoot '/'`: resolve `.` and
`..` segments and collapse separators, returning a separator-joined string
with no leading or trailing separator. -/
def normalizeString (s : Str) (allowAboveRoot : Bool) : Str :=
  List.intercalate [ '/'] (normSegs allowAboveRoot [] (s.splitOn '/'))

/-- Node `path.posix.normalize`. -/
def posixNormalize (s : Str) : Str :=
  if s = [] then [ '.']
  else
    let isAbs := s.head? == some '/'
    let trailing := s.getLast? == some '/'
    let p := normalizeString s (!isAbs)
    if p = [] then
      if isAbs then [ '/'] else if trailing then [ '.', '/'] else [ '.']
    else
      let p2 := if trailing then p ++ [ '/'] else p
      if isAbs then '/' :: p2 else p2

/-- Right-to-left accumulation loop of Node `path.posix.resolve`: starting
from the last argument, prepend arguments (then the cwd) until one is
absolute. -/
def resolveLoop : List Str → Str → Bool → Str × Bool
  | [], acc, abs => (acc, abs)
  | p :: rest, acc, abs =>
    if abs then (acc, abs)
    else if p = [] then resolveLoop rest acc abs
    else resolveLoop rest (p ++ '/' :: acc) (posixIsAbsolute p)

/-- Node `path.posix.resolve cwd args`: the process working directory `cwd`
is consulted when no argument is absolute. -/
def posixResolve (cwd : Str) (args : List Str) : Str :=
  let ra := resolveLoop (args.reverse ++ [cwd]) [] false
  let n := normalizeString ra.1 (!ra.2)
  if ra.2 then '/' :: n
  else if n ≠ [] then n else [ '.']

/-- Node `path.posix.join`: concatenate the nonempty parts with `/` and
normalize; all parts empty gives `.`. -/
def posixJoin (parts : List Str) : Str :=
  let joined := List.intercalate [ '/'] (parts.filter (· ≠ []))
  if joined = [] then [ '.'] else posixNormalize joined

/-- `assertAllowedRunDir` from `comfyui-path.ts`: trim, check the lexical
pattern, then membership in the allowlist. -/
def assertAllowedRunDir (runDir : Str) (allowed : List Str) : Except PathError Str := do
  let candidate ← assertNonEmptyTrimmed runDir [ 'r', 'u', 'n', 'D', 'i', 'r']
  if !isValidRunDir candidate then
    .error .invalidRunDirFormat
  else if !allowed.contains candidate then
    .error .notInAllowlist
  else
    .ok candidate

/-- `assertSafeRelativeImagePath` from `comfyui-path.ts`: the nine-step
rejection pipeline, in source order, returning the POSIX-normalized path. -/
def assertSafeRelativeImagePath (imagePath : Str) : Except PathError Str := do
  let candidate ← assertNonEmptyTrimmed imagePath
      [ 'i', 'm', 'a', 'g', 'e', 'P', 'a', 't', 'h']
  if candidate.contains '\x00' then
    .error .nullByte
  else if candidate.contains '%' then
    .error .encodedChars
  else if candidate.contains '\\' then
    .error .backslash
  else if posixIsAbsolute candidate || win32IsAbsolute candidate then
    .error .absolutePath
  else if hasWindowsDriveLetter candidate then
    .error .driveLetter
  else
    let segments := candidate.splitOn '/'
    if segments.any (fun seg => seg.length = 0) then
      .error .emptySegment
    else if segments.contains [ '.'] || segments.contains [ '.', '.'] then
      .error .dotSegment
    else
      let normalized := posixNormalize candidate
      if normalized = [ '.'] ∨ [ '.', '.', '/'].isPrefixOf normalized ∨
          [ '/', '.', '.', '/'] <:+: normalized then
        .error .escapesScope
      else
        .ok normalized

/-- `toComparablePath` from `comfyui-path.ts`, POSIX branch (the win32 branch
lowercases). -/
def toComparablePath (s : Str) : Str := s

/-- Node `path.sep` on POSIX. -/
def pathSep : Char := '/'

/-- The `rootWithSep` computation of `resolvePathUnderRoot`: the comparable
root qualified with a trailing separator (left alone when it already ends in
one). -/
def rootWithSep (comparableRoot : Str) : Str :=
  if comparableRoot.getLast? == some pathSep then comparableRoot
  else comparableRoot ++ [pathSep]

/-- `resolvePathUnderRoot` from `comfyui-path.ts`: re-validate the relative
path, resolve root and target to absolute form, and require the target's
comparable form to equal the root's or extend it past a separator. -/
def resolvePathUnderRoot (cwd root relPath : Str) : Except PathError Str := do
  let safeRoot ← assertNonEmptyTrimmed root [ 'r', 'o', 'o', 't']
  let safeRelPath ← assertSafeRelativeImagePath relPath
  let resolvedRoot := posixResolve cwd [safeRoot]
  let resolvedTarget := posixResolve cwd [resolvedRoot, safeRelPath]
  let comparableRoot := toComparablePath resolvedRoot
  let comparableTarget := toComparablePath resolvedTarget
  if comparableTarget ≠ comparableRoot ∧
      ¬ (rootWithSep comparableRoot).isPrefixOf comparableTarget then
    .error .rootEscape
  else
    .ok resolvedTarget

/-! ## JSON values and `JSON.parse`

JSON numbers are modelled as exact decimals in canonical
mantissa-times-power-of-ten form (`JSON.parse` yields finite doubles; IEEE
rounding is out of scope — every numeric field the claims touch is a small
integer).  JS objects are association lists in property insertion order;
duplicate keys in a JSON text keep the first position with the last value,
as in JS. -/

/-- A JSON number `mant * 10 ^ exp`, kept canonical (`exp = 0` when the
value is an integer, otherwise `exp < 0` and `mant` not divisible by ten),
so that structural equality is value equality. -/
structure JsonNumber where
  mant : Int
  exp : Int
deriving DecidableEq, Repr

/-- `10 ^ k` over the integers. -/
def pow10 : Nat → Int
  | 0 => 1
  | k + 1 => 10 * pow10 k

/-- Strip factors of ten from `m * 10 ^ (-(k+1))` until canonical. -/
def canonAux : Nat → Int → JsonNumber
  | 0, m => ⟨m, 0⟩
  | k + 1, m => if m % 10 = 0 then canonAux k (m / 10) else ⟨m, -((k : Int) + 1)⟩

/-- The canonical `JsonNumber` of value `mant * 10 ^ exp`. -/
def canonNum (mant exp : Int) : JsonNumber :=
  if mant = 0 then ⟨0, 0⟩
  else if 0 ≤ exp then ⟨mant * pow10 exp.toNat, 0⟩
  else canonAux (-exp).toNat mant

/-- A parsed JSON value (`JSON.parse` result). -/
inductive Json where
  | null
  | bool (b : Bool)
  | num (n : JsonNumber)
  | str (s : Str)
  | arr (elems : List Json)
  | obj (fields : List (Str × Json))
deriving Repr

/-- A JS object: fields in property insertion order. -/
abbrev JsonObject := List (Str × Json)

/-- JS property write: overwrite in place when the key exists, else append. -/
def objSet (fields : JsonObject) (k : Str) (v : Json) : JsonObject :=
  if fields.any (fun p => p.1 == k) then
    fields.map (fun p => if p.1 == k then (k, v) else p)
  else fields ++ [(k, v)]

/-- JS property read (`record.key`): `none` models `undefined`. -/
def objGet (fields : JsonObject) (k : Str) : Option Json :=
  (fields.find? (fun p => p.1 == k)).map (·.2)

/-- JSON insignificant whitespace: space, tab, line feed, carriage return. -/
def skipJsonWs (s : Str) : Str :=
  s.dropWhile (fun c => c == ' ' || c == '\t' || c == '\n' || c == '\r')

/-- Hex digit value, for `\uXXXX` string escapes. -/
def hexDigitVal (c : Char) : Option Nat :=
  if '0' ≤ c ∧ c ≤ '9' then some (c.toNat - '0'.toNat)
  else if 'a' ≤ c ∧ c ≤ 'f' then some (c.toNat - 'a'.toNat + 10)
  else if 'A' ≤ c ∧ c ≤ 'F' then some (c.toNat - 'A'.toNat + 10)
  else none

/-- JSON string body after the opening quote: handles the escape sequences of
the JSON grammar and rejects raw control characters. -/
def parseJsonStr (fuel : Nat) (s : Str) (acc : Str) : Option (Str × Str) :=
  match fuel, s with
  | 0, _ => none
  | _, [] => none
  | fuel + 1, c :: rest =>
    if c == '"' then some (acc.reverse, rest)
    else if c == '\\' then
      match rest with
      | [] => none
      | 'u' :: h1 :: h2 :: h3 :: h4 :: rest2 =>
        match hexDigitVal h1, hexDigitVal h2, hexDigitVal h3, hexDigitVal h4 with
        | some a, some b, some cc, some d =>
          parseJsonStr fuel rest2 (Char.ofNat (((a * 16 + b) * 16 + cc) * 16 + d) :: acc)
        | _, _, _, _ => none
      | e :: rest2 =>
        let esc : Option Char :=
          if e == '"' then some '"'
          else if e == '\\' then some '\\'
          else if e == '/' then some '/'
          else if e == 'b' then some '\x08'
          else if e == 'f' then some '\x0c'
          else if e == 'n' then some '\n'
          else if e == 'r' then some '\x0d'
          else if e == 't' then some '\t'
          else none
        match esc with
        | some ch => parseJsonStr fuel rest2 (ch :: acc)
        | none => none
    else if c.toNat < 0x20 then none
    else parseJsonStr fuel rest (c :: acc)

/-- Digits of a decimal literal as a natural number. -/
def digitsToNat (ds : Str) : Nat :=
  ds.foldl (fun n c => n * 10 + (c.toNat - '0'.toNat)) 0

/-- JSON number literal: optional minus, integer part without leading zeros,
optional fraction, optional exponent; the value as an exact decimal. -/
def parseJsonNum (s : Str) : Option (JsonNumber × Str) :=
  let (neg, s1) := match s with
    | '-' :: rest => (true, rest)
    | _ => (false, s)
  let intDigits := s1.takeWhile Char.isDigit
  let s2 := s1.dropWhile Char.isDigit
  if intDigits = [] then none
  else if intDigits.length > 1 ∧ intDigits.head? = some '0' then none
  else
    let (fracDigits, s3) := match s2 with
      | '.' :: rest =>
        (rest.takeWhile Char.isDigit, rest.dropWhile Char.isDigit)
      | _ => ([], s2)
    if s2.head? = some '.' ∧ fracDigits = [] then none
    else
      let expPart : Option (Int × Str) := match s3 with
        | c :: rest =>
          if c == 'e' ∨ c == 'E' then
            let (esign, r2) := match rest with
              | '-' :: r => ((-1 : Int), r)
              | '+' :: r => ((1 : Int), r)
              | r => ((1 : Int), r)
            let eDigits := r2.takeWhile Char.isDigit
            if eDigits = [] then none
            else some (esign * (digitsToNat eDigits : Int), r2.dropWhile Char.isDigit)
          else some (0, s3)
        | [] => some (0, s3)
      match expPart with
      | none => none
      | some (e, rest) =>
        let mantissa : Int := (digitsToNat (intDigits ++ fracDigits) : Int)
        let value := canonNum (if neg then -mantissa else mantissa)
          (e - (fracDigits.length : Int))
        some (value, rest)

mutual

/-- One JSON value at the head of the input (leading whitespace allowed). -/
def parseJsonValue (fuel : Nat) (s : Str) : Option (Json × Str) :=
  match fuel with
  | 0 => none
  | fuel + 1 =>
    let s := skipJsonWs s
    match s with
    | [] => none
    | c :: rest =>
      if c == '"' then
        (parseJsonStr (rest.length + 1) rest []).map (fun p => (Json.str p.1, p.2))
      else if c == '{' then
        let r := skipJsonWs rest
        match r with
        | '}' :: r2 => some (Json.obj [], r2)
        | _ => parseJsonMembers fuel r []
      else if c == '[' then
        let r := skipJsonWs rest
        match r with
        | ']' :: r2 => some (Json.arr [], r2)
        | _ => parseJsonElems fuel r []
      else if [ 't', 'r', 'u', 'e'].isPrefixOf s then some (Json.bool true, s.drop 4)
      else if [ 'f', 'a', 'l', 's', 'e'].isPrefixOf s then some (Json.bool false, s.drop 5)
      else if [ 'n', 'u', 'l', 'l'].isPrefixOf s then some (Json.null, s.drop 4)
      else (parseJsonNum s).map (fun p => (Json.num p.1, p.2))

/-- Members of a JSON object, before the next `"key": value` pair. -/
def parseJsonMembers (fuel : Nat) (s : Str) (acc : JsonObject) : Option (Json × Str) :=
  match fuel with
  | 0 => none
  | fuel + 1 =>
    match skipJsonWs s with
    | '"' :: rest =>
      match parseJsonStr (rest.length + 1) rest [] with
      | none => none
      | some (key, r1) =>
        match skipJsonWs r1 with
        | ':' :: r2 =>
          match parseJsonValue fuel r2 with
          | none => none
          | some (v, r3) =>
            let acc := objSet acc key v
            match skipJsonWs r3 with
            | ',' :: r4 => parseJsonMembers fuel r4 acc
            | '}' :: r4 => some (Json.obj acc, r4)
            | _ => none
        | _ => none
    | _ => none

/-- Elements of a JSON array, before the next value. -/
def parseJsonElems (fuel : Nat) (s : Str) (acc : List Json) : Option (Json × Str) :=
  match fuel with
  | 0 => none
  | fuel + 1 =>
    match parseJsonValue fuel s with
    | none => none
    | some (v, r1) =>
      let acc := acc ++ [v]
      match skipJsonWs r1 with
      | ',' :: r2 => parseJsonElems fuel r2 acc
      | ']' :: r2 => some (Json.arr acc, r2)
      | _ => none

end

/-- `JSON.parse`: a single JSON value spanning the whole text. -/
def jsonParse (raw : Str) : Option Json :=
  match parseJsonValue (raw.length + 1) raw with
  | some (v, rest) => if skipJsonWs rest = [] then some v else none
  | none => none

/-- `parseJsonObject` from `comfyui-fs.ts`: parse, then keep only plain
objects (`isJsonObject`); parse failures yield `none` (the TS `catch`). -/
def parseJsonObject (raw : Str) : Option JsonObject :=
  match jsonParse raw with
  | some (Json.obj fields) => some fields
  | _ => none

/-! ## `comfyui-types.ts` and the coercion helpers of `comfyui-fs.ts` -/

/-- `CellStatus` from `comfyui-types.ts`. -/
inductive CellStatus where
  | success
  | failed
  | skipped
  | missing
deriving DecidableEq, Repr

/-- `isCellStatus` from `comfyui-types.ts`: membership of a string in
`['success', 'failed', 'skipped', 'missing']`. -/
def isCellStatus (s : Str) : Bool :=
  s == "success".data || s == "failed".data || s == "skipped".data ||
    s == "missing".data

/-- The `CellStatus` named by one of the four status strings. -/
def cellStatusOfStr (s : Str) : CellStatus :=
  if s = "success".data then .success
  else if s = "failed".data then .failed
  else if s = "skipped".data then .skipped
  else .missing

/-- `toNullableString`: keep strings, anything else is `null`. -/
def toNullableString (v : Option Json) : Option Str :=
  match v with
  | some (Json.str s) => some s
  | _ => none

/-- `toStringOrEmpty`. -/
def toStringOrEmpty (v : Option Json) : Str :=
  (toNullableString v).getD []

/-- `toNullableNumber`: keep finite numbers (every parsed JSON number in the
model is finite), anything else is `null`. -/
def toNullableNumber (v : Option Json) : Option JsonNumber :=
  match v with
  | some (Json.num n) => some n
  | _ => none

/-- `toNumberOrZero`. -/
def toNumberOrZero (v : Option Json) : JsonNumber :=
  (toNullableNumber v).getD ⟨0, 0⟩

/-- `toNullableInteger`: keep numbers that satisfy `Number.isInteger`
(canonical form: exponent zero). -/
def toNullableInteger (v : Option Json) : Option Int :=
  match v with
  | some (Json.num n) => if n.exp = 0 then some n.mant else none
  | _ => none

/-- `toIntegerArray`: the integer elements of an array, else `[]`. -/
def toIntegerArray (v : Option Json) : List Int :=
  match v with
  | some (Json.arr xs) =>
    xs.filterMap (fun j =>
      match j with
      | Json.num n => if n.exp = 0 then some n.mant else none
      | _ => none)
  | _ => []

/-- `toStringArray`: the nonempty string elements of an array; `null` when
not an array or no element survives. -/
def toStringArray (v : Option Json) : Option (List Str) :=
  match v with
  | some (Json.arr xs) =>
    let values := xs.filterMap (fun j =>
      match j with
      | Json.str s => if s.length > 0 then some s else none
      | _ => none)
    if values.length > 0 then some values else none
  | _ => none

/-- `GenerationParams` from `comfyui-types.ts` (numbers as rationals). -/
structure GenerationParams where
  seed : Option JsonNumber
  negative_prompt : Option Str
  width : Option JsonNumber
  height : Option JsonNumber
  batch_size : Option JsonNumber
  steps : Option JsonNumber
  cfg : Option JsonNumber
  denoise : Option JsonNumber
  sampler_name : Option Str
  scheduler : Option Str
deriving DecidableEq, Repr

/-- `XFields` from `comfyui-types.ts`: the six optional descriptive fields. -/
structure XFields where
  quality : Option Str := none
  rating : Option Str := none
  gender : Option Str := none
  characters : Option Str := none
  series : Option Str := none
  general : Option Str := none
deriving DecidableEq, Repr

/-- `GridCell` from `comfyui-types.ts`. -/
structure GridCell where
  status : CellStatus
  x_index : Int
  y_index : Int
  x_fields : XFields
  y_value : Option Str
  positive_prompt : Option Str
  prompt_hash : Option Str
  seed : Option JsonNumber
  generation_params : Option GenerationParams
  workflow_hash : Option Str
  comfyui_prompt_id : Option Str
  local_image_path : Option Str
  local_image_paths : Option (List Str)
  error : Option Json
  started_at : Option Str
  finished_at : Option Str
  elapsed_ms : Option JsonNumber
deriving Repr

/-- `Selection` from `comfyui-types.ts`. -/
structure Selection where
  x_indexes : List Int
  y_indexes : List Int
  x_count : Int
  y_count : Int
  total_cells : Int
  x_limit : Option JsonNumber
  y_limit : Option JsonNumber
  x_indexes_raw : Option Str
  y_indexes_raw : Option Str
deriving DecidableEq, Repr

/-- `GenerationOverrides` from `comfyui-types.ts`. -/
structure GenerationOverrides where
  negative_prompt : Option Str
  width : Option JsonNumber
  height : Option JsonNumber
  batch_size : Option JsonNumber
  steps : Option JsonNumber
  cfg : Option JsonNumber
  denoise : Option JsonNumber
  sampler_name : Option Str
  scheduler : Option Str
deriving DecidableEq, Repr

/-- `RunDetail` from the shape constructed by `normalizeRunDetail` in
`comfyui-fs.ts` (the interface in `comfyui-types.ts` names the four
csv-provenance fields `x_json_path` etc. — version skew in the source; the
constructor is the authority here). -/
structure RunDetail where
  run_id : Str
  created_at : Str
  dry_run : Bool
  run_dir : Str
  x_csv_path : Str
  y_csv_path : Str
  x_csv_sha256 : Str
  y_csv_sha256 : Str
  template : Str
  base_seed : JsonNumber
  seed_strategy : Str
  workflow_json_path : Str
  workflow_json_sha256 : Str
  workflow_status : Str
  selected_ksampler_node_id : Option Str
  comfyui_base_url : Str
  request_timeout_s : JsonNumber
  job_timeout_s : JsonNumber
  concurrency : Int
  client_id : Option Str
  selection : Selection
  generation_overrides : GenerationOverrides
deriving DecidableEq, Repr

/-- `RunSummary` from `comfyui-types.ts`. -/
structure RunSummary where
  run_id : Str
  created_at : Str
  run_dir : Str
  x_count : Nat
  y_count : Nat
  total_cells : Nat
deriving DecidableEq, Repr

/-! ## Normalization functions of `comfyui-fs.ts` -/

/-- `normalizeCellStatus`: strings satisfying `isCellStatus` are kept,
everything else (other strings, non-strings, an absent field) is `failed`. -/
def normalizeCellStatus (v : Option Json) : CellStatus :=
  match v with
  | some (Json.str s) => if isCellStatus s then cellStatusOfStr s else .failed
  | _ => .failed

/-- `normalizeXFields`: copy the string-valued fields of the
`X_FIELDS_ORDER` keys from a plain object; anything else gives `{}`. -/
def normalizeXFields (v : Option Json) : XFields :=
  match v with
  | some (Json.obj fields) =>
    { quality := toNullableString (objGet fields ("quality".data))
      rating := toNullableString (objGet fields ("rating".data))
      gender := toNullableString (objGet fields ("gender".data))
      characters := toNullableString (objGet fields ("characters".data))
      series := toNullableString (objGet fields ("series".data))
      general := toNullableString (objGet fields ("general".data)) }
  | _ => {}

/-- `normalizeGenerationParams`: per-field coercion from a plain object;
anything else is `null`. -/
def normalizeGenerationParams (v : Option Json) : Option GenerationParams :=
  match v with
  | some (Json.obj fields) =>
    some
      { seed := toNullableNumber (objGet fields ("seed".data))
        negative_prompt := toNullableString (objGet fields ("negative_prompt".data))
        width := toNullableNumber (objGet fields ("width".data))
        height := toNullableNumber (objGet fields ("height".data))
        batch_size := toNullableNumber (objGet fields ("batch_size".data))
        steps := toNullableNumber (objGet fields ("steps".data))
        cfg := toNullableNumber (objGet fields ("cfg".data))
        denoise := toNullableNumber (objGet fields ("denoise".data))
        sampler_name := toNullableString (objGet fields ("sampler_name".data))
        scheduler := toNullableString (objGet fields ("scheduler".data)) }
  | _ => none

/-- `normalizeGridCell`: a parsed log record becomes a `GridCell` when it has
integer `x_index` and `y_index`; all other fields are tolerantly coerced. -/
def normalizeGridCell (record : JsonObject) : Option GridCell :=
  match toNullableInteger (objGet record ("x_index".data)),
      toNullableInteger (objGet record ("y_index".data)) with
  | some xIndex, some yIndex =>
    let localImagePath := toNullableString (objGet record ("local_image_path".data))
    let imagePaths := toStringArray (objGet record ("local_image_paths".data))
    let mergedImagePaths : Option (List Str) :=
      match imagePaths with
      | some ps => some ps
      | none =>
        match localImagePath with
        | some s => if s ≠ [] then some [s] else none
        | none => none
    some
      { status := normalizeCellStatus (objGet record ("status".data))
        x_index := xIndex
        y_index := yIndex
        x_fields := normalizeXFields (objGet record ("x_fields".data))
        y_value := toNullableString (objGet record ("y_value".data))
        positive_prompt := toNullableString (objGet record ("positive_prompt".data))
        prompt_hash := toNullableString (objGet record ("prompt_hash".data))
        seed := toNullableNumber (objGet record ("seed".data))
        generation_params := normalizeGenerationParams (objGet record ("generation_params".data))
        workflow_hash := toNullableString (objGet record ("workflow_hash".data))
        comfyui_prompt_id := toNullableString (objGet record ("comfyui_prompt_id".data))
        local_image_path :=
          match localImagePath with
          | some s => some s
          | none => mergedImagePaths.bind (·.head?)
        local_image_paths := mergedImagePaths
        error :=
          match objGet record ("error".data) with
          | some Json.null => none
          | some j => some j
          | none => none
        started_at := toNullableString (objGet record ("started_at".data))
        finished_at := toNullableString (objGet record ("finished_at".data))
        elapsed_ms := toNullableNumber (objGet record ("elapsed_ms".data)) }
  | _, _ => none

/-- The fields of a JSON value when it is a plain object, else `{}` (the
`isJsonObject(value) ? value : {}` idiom). -/
def objFieldsOrEmpty (v : Option Json) : JsonObject :=
  match v with
  | some (Json.obj fields) => fields
  | _ => []

/-- `normalizeSelection` from `comfyui-fs.ts`: explicit integer counts are
kept; the list lengths (and their product) are used only as fallbacks. -/
def normalizeSelection (v : Option Json) : Selection :=
  let record := objFieldsOrEmpty v
  let xIndexes := toIntegerArray (objGet record ("x_indexes".data))
  let yIndexes := toIntegerArray (objGet record ("y_indexes".data))
  { x_indexes := xIndexes
    y_indexes := yIndexes
    x_count := (toNullableInteger (objGet record ("x_count".data))).getD xIndexes.length
    y_count := (toNullableInteger (objGet record ("y_count".data))).getD yIndexes.length
    total_cells :=
      (toNullableInteger (objGet record ("total_cells".data))).getD
        (xIndexes.length * yIndexes.length)
    x_limit := toNullableNumber (objGet record ("x_limit".data))
    y_limit := toNullableNumber (objGet record ("y_limit".data))
    x_indexes_raw := toNullableString (objGet record ("x_indexes_raw".data))
    y_indexes_raw := toNullableString (objGet record ("y_indexes_raw".data)) }

/-- `normalizeGenerationOverrides` from `comfyui-fs.ts`. -/
def normalizeGenerationOverrides (v : Option Json) : GenerationOverrides :=
  let record := objFieldsOrEmpty v
  { negative_prompt := toNullableString (objGet record ("negative_prompt".data))
    width := toNullableNumber (objGet record ("width".data))
    height := toNullableNumber (objGet record ("height".data))
    batch_size := toNullableNumber (objGet record ("batch_size".data))
    steps := toNullableNumber (objGet record ("steps".data))
    cfg := toNullableNumber (objGet record ("cfg".data))
    denoise := toNullableNumber (objGet record ("denoise".data))
    sampler_name := toNullableString (objGet record ("sampler_name".data))
    scheduler := toNullableString (objGet record ("scheduler".data)) }

/-- Failures of `loadRunDetail` (`readFile` I/O errors, an unparsable
`run.json`, or missing mandatory identity fields). -/
inductive LoadError where
  | ioError
  | invalidRunJson
  | missingIdentity
deriving DecidableEq, Repr

/-- `normalizeRunDetail` from `comfyui-fs.ts`: fails only when `run_id` or
`created_at` is absent, non-string, or empty (JS falsiness); every other
field has a tolerant fallback. -/
def normalizeRunDetail (record : JsonObject) (runDir : Str) : Except LoadError RunDetail :=
  let runId := toNullableString (objGet record ("run_id".data))
  let createdAt := toNullableString (objGet record ("created_at".data))
  if (runId.getD []) = [] ∨ (createdAt.getD []) = [] then
    .error .missingIdentity
  else
    .ok
      { run_id := runId.getD []
        created_at := createdAt.getD []
        dry_run :=
          match objGet record ("dry_run".data) with
          | some (Json.bool true) => true
          | _ => false
        run_dir :=
          match toNullableString (objGet record ("run_dir".data)) with
          | some s => s
          | none => posixJoin ["comfyui_api_outputs".data, runDir]
        x_csv_path := toStringOrEmpty (objGet record ("x_csv_path".data))
        y_csv_path := toStringOrEmpty (objGet record ("y_csv_path".data))
        x_csv_sha256 := toStringOrEmpty (objGet record ("x_csv_sha256".data))
        y_csv_sha256 := toStringOrEmpty (objGet record ("y_csv_sha256".data))
        template := toStringOrEmpty (objGet record ("template".data))
        base_seed := toNumberOrZero (objGet record ("base_seed".data))
        seed_strategy := toStringOrEmpty (objGet record ("seed_strategy".data))
        workflow_json_path := toStringOrEmpty (objGet record ("workflow_json_path".data))
        workflow_json_sha256 := toStringOrEmpty (objGet record ("workflow_json_sha256".data))
        workflow_status := toStringOrEmpty (objGet record ("workflow_status".data))
        selected_ksampler_node_id :=
          toNullableString (objGet record ("selected_ksampler_node_id".data))
        comfyui_base_url := toStringOrEmpty (objGet record ("comfyui_base_url".data))
        request_timeout_s := toNumberOrZero (objGet record ("request_timeout_s".data))
        job_timeout_s := toNumberOrZero (objGet record ("job_timeout_s".data))
        concurrency := (toNullableInteger (objGet record ("concurrency".data))).getD 0
        client_id := toNullableString (objGet record ("client_id".data))
        selection := normalizeSelection (objGet record ("selection".data))
        generation_overrides :=
          normalizeGenerationOverrides (objGet record ("generation_overrides".data)) }

/-! ## Event-log parsing and grid assembly (`comfyui-fs.ts`) -/

/-- The sparse cell map: entries in insertion order, keyed by coordinate.
The source keys a `Map`/`Record` by the string `` `${x},${y}` ``, which is in
bijection with the coordinate pair for the integer indexes produced by
`normalizeGridCell`. -/
abbrev RecordMap := List ((Int × Int) × GridCell)

/-- JS `Map.set` / `Record` assignment: overwrite in place when the key
exists, else append. -/
def recordSet (m : RecordMap) (k : Int × Int) (v : GridCell) : RecordMap :=
  if m.any (fun p => p.1 == k) then
    m.map (fun p => if p.1 == k then (k, v) else p)
  else m ++ [(k, v)]

/-- JS `Record` lookup (`cells[key]`). -/
def recordGet (m : RecordMap) (k : Int × Int) : Option GridCell :=
  (m.find? (fun p => p.1 == k)).map (·.2)

/-- One iteration of the `parseMetadataJsonl` line loop: trim, skip blank
lines, parse, and normalize; `none` means the line contributes nothing. -/
def lineToCell (line : Str) : Option GridCell :=
  let trimmed := jsTrim line
  if trimmed.length = 0 then none
  else
    match parseJsonObject trimmed with
    | none => none
    | some record => normalizeGridCell record

/-- The body of the `parseMetadataJsonl` line loop: a contributing line's
cell is written into the map under its coordinate key. -/
def metadataStep (cells : RecordMap) (line : Str) : RecordMap :=
  match lineToCell line with
  | none => cells
  | some cell => recordSet cells (cell.x_index, cell.y_index) cell

/-- `parseMetadataJsonl` from `comfyui-fs.ts`, as a function of the raw log
text (`none` models a missing file, which yields an empty map).  The source
splits on `/\r?\n/`; splitting on `'\n'` is equivalent here because each line
is immediately trimmed and `'\r'` is trim whitespace. -/
def parseMetadataJsonl (rawOpt : Option Str) : RecordMap :=
  match rawOpt with
  | none => []
  | some raw => (raw.splitOn '\n').foldl metadataStep []

/-- `createMissingCell` from `comfyui-fs.ts`. -/
def createMissingCell (xIndex yIndex : Int) : GridCell :=
  { status := .missing
    x_index := xIndex
    y_index := yIndex
    x_fields := {}
    y_value := none
    positive_prompt := none
    prompt_hash := none
    seed := none
    generation_params := none
    workflow_hash := none
    comfyui_prompt_id := none
    local_image_path := none
    local_image_paths := none
    error := none
    started_at := none
    finished_at := none
    elapsed_ms := none }

/-- The `X_FIELDS_ORDER` projection of an `XFields` record. -/
def xFieldsList (xf : XFields) : List (Option Str) :=
  [xf.quality, xf.rating, xf.gender, xf.characters, xf.series, xf.general]

/-- JS `` `x${xIndex}` `` / `` `y${yIndex}` ``: positional placeholder label. -/
def placeholderLabel (prefixChar : Char) (index : Int) : Str :=
  prefixChar :: (toString index).data

/-- `formatXLabel` from `comfyui-fs.ts`: join the trimmed nonempty
`X_FIELDS_ORDER` attributes with a space, else a positional placeholder. -/
def formatXLabel (cell : Option GridCell) (xIndex : Int) : Str :=
  match cell with
  | none => placeholderLabel 'x' xIndex
  | some c =>
    let values :=
      ((xFieldsList c.x_fields).filterMap (fun o => o.map jsTrim)).filter (· ≠ [])
    if values.length > 0 then List.intercalate [ ' '] values
    else placeholderLabel 'x' xIndex

/-- `formatYLabel` from `comfyui-fs.ts`: the trimmed `y_value` when nonempty,
else a positional placeholder. -/
def formatYLabel (cell : Option GridCell) (yIndex : Int) : Str :=
  match cell.bind (·.y_value) with
  | some v =>
    let t := jsTrim v
    if t.length > 0 then t else placeholderLabel 'y' yIndex
  | none => placeholderLabel 'y' yIndex

/-- The `firstByX`/`firstByY` accumulation of `buildGridIndex`: walk the cell
map's values in order and keep the first cell per key (`Map.has` guard). -/
def firstByKey (key : GridCell → Int) (cells : List GridCell) : List (Int × GridCell) :=
  cells.foldl
    (fun m c => if (m.lookup (key c)).isSome then m else m ++ [(key c, c)])
    []

/-- `GridIndex` from `comfyui-types.ts`. -/
structure GridIndex where
  xLabels : List Str
  yLabels : List Str
  x_count : Nat
  y_count : Nat
  cells : RecordMap
deriving Repr

/-- `buildGridIndex` from `comfyui-fs.ts`: labels from the first record per
axis value in map order, and a dense cell record over the declared cross
product, synthesizing `missing` cells. -/
def buildGridIndex (runDetail : RunDetail) (cells : RecordMap) : GridIndex :=
  let xIndexes := runDetail.selection.x_indexes
  let yIndexes := runDetail.selection.y_indexes
  let values := cells.map (·.2)
  let firstByX := firstByKey (·.x_index) values
  let firstByY := firstByKey (·.y_index) values
  let xLabels := xIndexes.map (fun xIndex => formatXLabel (firstByX.lookup xIndex) xIndex)
  let yLabels := yIndexes.map (fun yIndex => formatYLabel (firstByY.lookup yIndex) yIndex)
  let gridCells :=
    yIndexes.foldl
      (fun acc yIndex =>
        xIndexes.foldl
          (fun acc2 xIndex =>
            recordSet acc2 (xIndex, yIndex)
              ((recordGet cells (xIndex, yIndex)).getD (createMissingCell xIndex yIndex)))
          acc)
      []
  { xLabels := xLabels
    yLabels := yLabels
    x_count := xIndexes.length
    y_count := yIndexes.length
    cells := gridCells }

/-! ## Directory enumeration and run loading (`comfyui-fs.ts`)

The filesystem is modelled as the observations the source makes of it: the
`readdir` listing of the outputs root, and per entry the `stat`/`readFile`
outcomes for its `run.json`. -/

/-- One `readdir` entry of the outputs root. -/
structure FsEntry where
  name : Str
  /-- `entry.isDirectory()`. -/
  isDir : Bool
  /-- `stat(<dir>/run.json)` succeeds and `.isFile()` (the `containsRunJson`
  check). -/
  runJsonIsFile : Bool
  /-- `readFile(<dir>/run.json)` result; `none` models an I/O failure. -/
  runJson : Option Str

/-- The outputs root; `entries = none` models `readdir` failing with ENOENT. -/
structure FileSystem where
  entries : Option (List FsEntry)

/-- Lexicographic code-point order on strings.  The source sorts with
`localeCompare`, whose order is locale-dependent; the claims under
verification depend only on membership, which is sort-invariant. -/
def strLeB : Str → Str → Bool
  | [], _ => true
  | _ :: _, [] => false
  | a :: as, b :: bs => if a < b then true else if b < a then false else strLeB as bs

/-- `discoverRunDirs` from `comfyui-fs.ts`: directories whose name matches
the run pattern and which contain a regular `run.json`, sorted descending. -/
def discoverRunDirs (fs : FileSystem) : List Str :=
  match fs.entries with
  | none => []
  | some entries =>
    let candidates := entries.filter (fun e => e.isDir && isValidRunDir e.name)
    let runDirs := (candidates.filter (fun e => e.runJsonIsFile)).map (·.name)
    runDirs.mergeSort (fun left right => strLeB right left)

/-- `loadRunDetail` from `comfyui-fs.ts`: read `run.json`, parse it as a
plain object, and normalize. -/
def loadRunDetail (fs : FileSystem) (runDir : Str) : Except LoadError RunDetail :=
  match ((fs.entries.getD []).find? (fun e => e.name == runDir)).bind (·.runJson) with
  | none => .error .ioError
  | some raw =>
    match parseJsonObject raw with
    | none => .error .invalidRunJson
    | some record => normalizeRunDetail record runDir

/-- The summary record pushed by `listRunSummaries` for one run. -/
def mkRunSummary (runDetail : RunDetail) (runDir : Str) : RunSummary :=
  { run_id := runDetail.run_id
    created_at := runDetail.created_at
    run_dir := runDir
    x_count := runDetail.selection.x_indexes.length
    y_count := runDetail.selection.y_indexes.length
    total_cells :=
      runDetail.selection.x_indexes.length * runDetail.selection.y_indexes.length }

/-- The `for`/`try`/`catch` loop of `listRunSummaries`: a run whose
descriptor fails to load is skipped (`continue`), the rest are summarized. -/
def listRunSummariesLoop (fs : FileSystem) : List Str → List RunSummary
  | [] => []
  | runDir :: rest =>
    match loadRunDetail fs runDir with
    | .ok runDetail => mkRunSummary runDetail runDir :: listRunSummariesLoop fs rest
    | .error _ => listRunSummariesLoop fs rest

/-- `listRunSummaries` from `comfyui-fs.ts`. -/
def listRunSummaries (fs : FileSystem) : List RunSummary :=
  listRunSummariesLoop fs (discoverRunDirs fs)

/-! ## Helper lemmas about `RecordMap` updates -/

theorem find?_overwrite (m : RecordMap) (k : Int × Int) (v : GridCell)
    (h : m.any (fun p => p.1 == k)) :
    (m.map (fun p => if p.1 == k then (k, v) else p)).find? (fun p => p.1 == k) =
      some (k, v) := by
  induction m with
  | nil => cases h
  | cons q m ih =>
    rw [List.map_cons]
    by_cases hq : q.1 = k
    · rw [if_pos (beq_iff_eq.mpr hq)]
      exact List.find?_cons_of_pos _ (beq_self_eq_true k)
    · have hb : (q.1 == k) = false := beq_eq_false_iff_ne.mpr hq
      rw [if_neg (by rw [hb]; exact Bool.false_ne_true),
        List.find?_cons_of_neg _ (by rw [hb]; exact Bool.false_ne_true)]
      exact ih (by simpa [List.any_cons, hb] using h)

theorem find?_overwrite_ne (m : RecordMap) (k k' : Int × Int) (v : GridCell)
    (h : (k == k') = false) :
    (m.map (fun p => if p.1 == k then (k, v) else p)).find? (fun p => p.1 == k') =
      m.find? (fun p => p.1 == k') := by
  induction m with
  | nil => rfl
  | cons q m ih =>
    rw [List.map_cons]
    by_cases hq : q.1 = k
    · have hq' : (q.1 == k') = false := by rw [hq]; exact h
      rw [if_pos (beq_iff_eq.mpr hq),
        List.find?_cons_of_neg _ (by rw [show ((k, v).1 == k') = false from h]; exact Bool.false_ne_true),
        List.find?_cons_of_neg _ (by rw [hq']; exact Bool.false_ne_true)]
      exact ih
    · have hb : (q.1 == k) = false := beq_eq_false_iff_ne.mpr hq
      rw [if_neg (by rw [hb]; exact Bool.false_ne_true)]
      by_cases hq' : q.1 = k'
      · rw [List.find?_cons_of_pos (p := fun r : (Int × Int) × GridCell => r.1 == k') _ (beq_iff_eq.mpr hq'),
          List.find?_cons_of_pos (p := fun r : (Int × Int) × GridCell => r.1 == k') _ (beq_iff_eq.mpr hq')]
      · have hb' : (q.1 == k') = false := beq_eq_false_iff_ne.mpr hq'
        rw [List.find?_cons_of_neg _ (by rw [hb']; exact Bool.false_ne_true),
          List.find?_cons_of_neg _ (by rw [hb']; exact Bool.false_ne_true)]
        exact ih

theorem recordGet_recordSet_self (m : RecordMap) (k : Int × Int) (v : GridCell) :
    recordGet (recordSet m k v) k = some v := by
  unfold recordSet recordGet
  by_cases hany : m.any (fun p => p.1 == k)
  · rw [if_pos hany, find?_overwrite m k v hany]; rfl
  · rw [if_neg hany, List.find?_append]
    have hnone : m.find? (fun p => p.1 == k) = none := by
      rw [List.find?_eq_none]
      intro x hx
      exact fun hpx => hany (List.any_eq_true.mpr ⟨x, hx, hpx⟩)
    simp [hnone]

theorem recordGet_recordSet_ne (m : RecordMap) (k k' : Int × Int) (v : GridCell)
    (h : k' ≠ k) : recordGet (recordSet m k v) k' = recordGet m k' := by
  have hb : (k == k') = false := by simp [Ne.symm h]
  unfold recordSet recordGet
  by_cases hany : m.any (fun p => p.1 == k)
  · rw [if_pos hany, find?_overwrite_ne m k k' v hb]
  · rw [if_neg hany, List.find?_append]
    simp [hb]

theorem recordGet_foldl_metadataStep_untouched (lines : List Str) (acc : RecordMap)
    (k : Int × Int)
    (h : ∀ l ∈ lines, ∀ c, lineToCell l = some c → (c.x_index, c.y_index) ≠ k) :
    recordGet (lines.foldl metadataStep acc) k = recordGet acc k := by
  induction lines generalizing acc with
  | nil => rfl
  | cons l lines ih =>
    have hstep : recordGet (metadataStep acc l) k = recordGet acc k := by
      unfold metadataStep
      cases hc : lineToCell l with
      | none => rfl
      | some c =>
        exact recordGet_recordSet_ne _ _ _ _ (Ne.symm (h l (List.mem_cons_self l lines) c hc))
    rw [List.foldl_cons, ih _ (fun l' hl' => h l' (List.mem_cons_of_mem _ hl')), hstep]

/-! ## Claims -/

/-- C3: in the path sanitizer's fixed rejection order, any candidate that
(after trimming) is nonempty, has no null byte, and contains a percent
character is rejected with the encoded-characters rejection, before the
backslash, absolute-path, drive-letter, segment and normalization checks. -/
theorem claim3_percent_rejected_first (imagePath : Str)
    (hne : jsTrim imagePath ≠ [])
    (hnull : ¬ (jsTrim imagePath).contains '\x00')
    (hpct : (jsTrim imagePath).contains '%') :
    assertSafeRelativeImagePath imagePath = .error .encodedChars := by
  have hok : assertNonEmptyTrimmed imagePath
      [ 'i', 'm', 'a', 'g', 'e', 'P', 'a', 't', 'h'] = .ok (jsTrim imagePath) := by
    simp [assertNonEmptyTrimmed, List.length_eq_zero, hne]
  unfold assertSafeRelativeImagePath
  rw [hok]
  show (if (jsTrim imagePath).contains '\x00' then _ else _) = _
  rw [if_neg hnull, if_pos hpct]

/-- C3 witness: the candidate `"..%2fsecret"` is rejected at the percent
check. -/
theorem claim3_witness :
    assertSafeRelativeImagePath ("..%2fsecret".data) = .error .encodedChars :=
  claim3_percent_rejected_first ("..%2fsecret".data) (by decide) (by decide) (by decide)

/-- A minimal log cell fixture: coordinate `(0,0)`, a given status, every
other field at its tolerant default. -/
def plainCell (st : CellStatus) : GridCell :=
  { createMissingCell 0 0 with status := st }

def c5line1 : Str :=
  "\x7b\"x_index\":0,\"y_index\":0,\"status\":\"failed\"\x7d".data

def c5line2 : Str :=
  "\x7b\"x_index\":0,\"y_index\":0,\"status\":\"success\"\x7d".data

def c5raw : Str := c5line1 ++ '\n' :: c5line2

/-- C5: `parseMetadataJsonl` is last-write-wins by coordinate: when the log's
lines contain two successfully parsed records with the same coordinate and
differing status, and no later line touches that coordinate, the stored
record is the one parsed from the later line. -/
theorem claim5_last_write_wins
    (raw l1 l2 : Str) (pre mid post : List Str) (c1 c2 : GridCell)
    (hsplit : raw.splitOn '\n' = pre ++ l1 :: mid ++ l2 :: post)
    (h1 : lineToCell l1 = some c1) (h2 : lineToCell l2 = some c2)
    (hcoord : (c1.x_index, c1.y_index) = (c2.x_index, c2.y_index))
    (hstatus : c1.status ≠ c2.status)
    (hpost : ∀ l ∈ post, ∀ c, lineToCell l = some c →
      (c.x_index, c.y_index) ≠ (c2.x_index, c2.y_index)) :
    recordGet (parseMetadataJsonl (some raw)) (c2.x_index, c2.y_index) = some c2 := by
  have hre : pre ++ l1 :: mid ++ l2 :: post = ((pre ++ l1 :: mid) ++ [l2]) ++ post := by
    simp
  rw [parseMetadataJsonl, hsplit, hre, List.foldl_append, List.foldl_append,
    recordGet_foldl_metadataStep_untouched post _ _ hpost]
  show recordGet (metadataStep _ l2) _ = _
  unfold metadataStep
  rw [h2]
  exact recordGet_recordSet_self _ _ _

/-- C5 witness: a two-line log with statuses `failed` then `success` at the
same coordinate stores the `success` record. -/
theorem claim5_witness :
    recordGet (parseMetadataJsonl (some c5raw)) (0, 0) = some (plainCell .success) := by
  have h := claim5_last_write_wins c5raw c5line1 c5line2 [] [] []
    (plainCell .failed) (plainCell .success)
    (by decide) (by rfl) (by rfl) (by rfl) (by decide)
    (by intro l hl; cases hl)
  exact h

def c6line : Str :=
  "\x7b\"x_index\":0,\"y_index\":0,\"status\":\"missing\"\x7d".data

/-- C6 counterexample: a log line whose status field is the string
`"missing"` is parsed to a record with status `missing` — `isCellStatus`
accepts `"missing"`, so `normalizeCellStatus` does not rewrite it to
`failed`. -/
theorem claim6_counterexample :
    (lineToCell c6line).map GridCell.status = some CellStatus.missing := by rfl

/-- C6 (amended): a parsed record's status is `missing` exactly when the log
line's status field is literally the string `"missing"`; any other invalid or
absent status value normalizes to `failed`. -/
theorem claim6_amended (record : JsonObject) (cell : GridCell)
    (h : normalizeGridCell record = some cell) :
    (cell.status = .missing ↔
      objGet record ("status".data) = some (Json.str ("missing".data))) ∧
    (∀ v, objGet record ("status".data) = v →
      (∀ s, v = some (Json.str s) → isCellStatus s = false) →
      cell.status = .failed) := by
  have hstatus : cell.status = normalizeCellStatus (objGet record ("status".data)) := by
    unfold normalizeGridCell at h
    split at h
    · exact (Option.some.injEq _ _ ▸ h : _ = cell) ▸ rfl
    · exact absurd h (by simp)
  constructor
  · rw [hstatus]
    cases hv : objGet record ("status".data) with
    | none => simp [normalizeCellStatus]
    | some j =>
      cases j with
      | str s =>
        simp only [normalizeCellStatus, Option.some.injEq, Json.str.injEq]
        by_cases hs : isCellStatus s
        · have hmem : s = "success".data ∨ s = "failed".data ∨ s = "skipped".data ∨
              s = "missing".data := by
            simpa [isCellStatus, or_assoc] using hs
          rw [if_pos hs]
          unfold cellStatusOfStr
          rcases hmem with h1 | h1 | h1 | h1 <;> subst h1 <;> simp
        · rw [if_neg hs]
          constructor
          · intro hh; cases hh
          · intro hh
            rw [hh] at hs
            exact absurd (by decide : isCellStatus ("missing".data) = true) hs
      | null => simp [normalizeCellStatus]
      | bool b => simp [normalizeCellStatus]
      | num n => simp [normalizeCellStatus]
      | arr xs => simp [normalizeCellStatus]
      | obj fields => simp [normalizeCellStatus]
  · intro v hv hnone
    rw [hstatus, hv]
    cases v with
    | none => rfl
    | some j =>
      cases j with
      | str s =>
        have := hnone s rfl
        simp [normalizeCellStatus, this]
      | null => rfl
      | bool b => rfl
      | num n => rfl
      | arr xs => rfl
      | obj fields => rfl

def c6wRecord : JsonObject :=
  [("x_index".data, Json.num ⟨0, 0⟩), ("y_index".data, Json.num ⟨0, 0⟩)]

/-- C6 witness: a line with no status field at all normalizes to `failed`. -/
theorem claim6_witness : (plainCell .failed).status = .failed :=
  (claim6_amended c6wRecord (plainCell .failed) (by rfl)).2 none (by rfl)
    (fun s hs => by cases hs)

def c8sel : Option Json :=
  some (Json.obj
    [("x_count".data, Json.num ⟨7, 0⟩),
     ("x_indexes".data, Json.arr [Json.num ⟨1, 0⟩, Json.num ⟨2, 0⟩])])

/-- C8 counterexample: an explicit `x_count` of 7 next to an `x_indexes`
list of length 2 is kept as 7 — the derived count is not used when the
explicit count is inconsistent with the list's length. -/
theorem claim8_counterexample :
    (normalizeSelection c8sel).x_count ≠
      ((normalizeSelection c8sel).x_indexes.length : Int) := by decide

/-- C8 (amended): the derived counts are used exactly when the explicit
count fields are absent or not integers; an explicit integer count is kept
verbatim, consistent with the lists' lengths or not. -/
theorem claim8_amended (v : Option Json) :
    (toNullableInteger (objGet (objFieldsOrEmpty v) ("x_count".data)) = none →
      (normalizeSelection v).x_count = ((normalizeSelection v).x_indexes.length : Int)) ∧
    (∀ n, toNullableInteger (objGet (objFieldsOrEmpty v) ("x_count".data)) = some n →
      (normalizeSelection v).x_count = n) ∧
    (toNullableInteger (objGet (objFieldsOrEmpty v) ("y_count".data)) = none →
      (normalizeSelection v).y_count = ((normalizeSelection v).y_indexes.length : Int)) ∧
    (∀ n, toNullableInteger (objGet (objFieldsOrEmpty v) ("y_count".data)) = some n →
      (normalizeSelection v).y_count = n) ∧
    (toNullableInteger (objGet (objFieldsOrEmpty v) ("total_cells".data)) = none →
      (normalizeSelection v).total_cells =
        ((normalizeSelection v).x_indexes.length * (normalizeSelection v).y_indexes.length : Int)) ∧
    (∀ n, toNullableInteger (objGet (objFieldsOrEmpty v) ("total_cells".data)) = some n →
      (normalizeSelection v).total_cells = n) := by
  refine ⟨fun h => ?_, fun n h => ?_, fun h => ?_, fun n h => ?_, fun h => ?_, fun n h => ?_⟩ <;>
    simp [normalizeSelection, h]

/-- C8 witness: on the fixture, the explicit `x_count` 7 is kept and the
absent `y_count` falls back to the (empty) list's length. -/
theorem claim8_witness :
    (normalizeSelection c8sel).x_count = 7 ∧
    (normalizeSelection c8sel).y_count = ((normalizeSelection c8sel).y_indexes.length : Int) :=
  ⟨(claim8_amended c8sel).2.1 7 (by decide), (claim8_amended c8sel).2.2.1 (by decide)⟩

/-- C2: a run identifier is accepted by `assertAllowedRunDir` exactly when
(after trimming) it is nonempty, matches the run-dir lexical pattern, and is
a member of the allowlist; and `discoverRunDirs` lists a name exactly when a
directory entry of that name matches the pattern and holds a regular
`run.json` — pattern-only directories are excluded. -/
theorem claim2_allowlist_membership :
    (∀ runDir allowed c, assertAllowedRunDir runDir allowed = .ok c ↔
      (c = jsTrim runDir ∧ c ≠ [] ∧ isValidRunDir c = true ∧ c ∈ allowed)) ∧
    (∀ fs name, name ∈ discoverRunDirs fs ↔
      ∃ entries, fs.entries = some entries ∧ ∃ e ∈ entries,
        e.name = name ∧ e.isDir = true ∧ isValidRunDir name = true ∧
          e.runJsonIsFile = true) := by
  constructor
  · intro runDir allowed c
    unfold assertAllowedRunDir assertNonEmptyTrimmed
    by_cases hlen : (jsTrim runDir).length = 0
    · have hnil : jsTrim runDir = [] := List.length_eq_zero.mp hlen
      simp only [hlen, if_true]
      constructor
      · intro h; cases h
      · rintro ⟨hc, hne, -, -⟩
        exact absurd (hc.trans hnil) hne
    · simp only [hlen, if_false]
      show (if !isValidRunDir (jsTrim runDir) then _ else _) = _ ↔ _
      by_cases hvalid : isValidRunDir (jsTrim runDir)
      · rw [if_neg (by rw [hvalid]; decide)]
        by_cases hmem : allowed.contains (jsTrim runDir)
        · rw [if_neg (by rw [hmem]; decide)]
          constructor
          · intro h
            cases h
            exact ⟨rfl, fun hnil => hlen (by rw [hnil]; rfl), hvalid,
              List.elem_iff.mp hmem⟩
          · rintro ⟨hc, -, -, -⟩
            rw [hc]
        · rw [if_pos (by rw [Bool.eq_false_iff.mpr (fun hx => hmem hx)]; rfl)]
          constructor
          · intro h; cases h
          · rintro ⟨hc, -, -, hin⟩
            exact absurd (List.elem_iff.mpr (hc ▸ hin)) hmem
      · rw [if_pos (by rw [Bool.eq_false_iff.mpr hvalid]; rfl)]
        constructor
        · intro h; cases h
        · rintro ⟨hc, -, hv, -⟩
          exact absurd (hc ▸ hv) hvalid
  · intro fs name
    unfold discoverRunDirs
    cases hfs : fs.entries with
    | none =>
      simp only [List.not_mem_nil, false_iff]
      rintro ⟨entries, hcontra, -⟩
      cases hcontra
    | some entries =>
      rw [List.mem_mergeSort, List.mem_map]
      constructor
      · rintro ⟨e, he, rfl⟩
        rw [List.mem_filter] at he
        obtain ⟨he1, hfile⟩ := he
        rw [List.mem_filter, Bool.and_eq_true] at he1
        exact ⟨entries, rfl, e, he1.1, rfl, he1.2.1, he1.2.2, hfile⟩
      · rintro ⟨entries2, hsome, e, hmem, rfl, hdir, hvalid, hfile⟩
        cases (Option.some.injEq _ _ ▸ hsome : entries = entries2)
        refine ⟨e, ?_, rfl⟩
        rw [List.mem_filter]
        refine ⟨?_, hfile⟩
        rw [List.mem_filter, Bool.and_eq_true]
        exact ⟨hmem, hdir, hvalid⟩

/-- C1: every path accepted by `resolvePathUnderRoot` has a comparable form
that either equals the resolved root's comparable form or extends it past a
path separator; when the sanitizer accepts but that check fails, the result
is the root-escape rejection. -/
theorem claim1_resolved_path_confined :
    (∀ cwd root relPath t, resolvePathUnderRoot cwd root relPath = .ok t →
      toComparablePath t = toComparablePath (posixResolve cwd [jsTrim root]) ∨
        (rootWithSep (toComparablePath (posixResolve cwd [jsTrim root]))).isPrefixOf
          (toComparablePath t) = true) ∧
    (∀ cwd root relPath safeRel, jsTrim root ≠ [] →
      assertSafeRelativeImagePath relPath = .ok safeRel →
      ¬ (posixResolve cwd [posixResolve cwd [jsTrim root], safeRel] =
            posixResolve cwd [jsTrim root] ∨
          (rootWithSep (posixResolve cwd [jsTrim root])).isPrefixOf
            (posixResolve cwd [posixResolve cwd [jsTrim root], safeRel]) = true) →
      resolvePathUnderRoot cwd root relPath = .error .rootEscape) := by
  constructor
  · intro cwd root relPath t h
    unfold resolvePathUnderRoot assertNonEmptyTrimmed at h
    by_cases hlen : (jsTrim root).length = 0
    · rw [if_pos hlen] at h
      cases h
    · rw [if_neg hlen] at h
      cases hrel : assertSafeRelativeImagePath relPath with
      | error e => rw [hrel] at h; cases h
      | ok safeRel =>
        rw [hrel] at h
        simp only [bind, Except.bind, toComparablePath] at h ⊢
        split at h
        · cases h
        · rename_i hcond
          cases h
          rcases not_and_or.mp hcond with hc | hc
          · exact Or.inl (not_not.mp hc)
          · exact Or.inr (not_not.mp hc)
  · intro cwd root relPath safeRel hroot hrel hescape
    unfold resolvePathUnderRoot assertNonEmptyTrimmed
    rw [if_neg (fun hx => hroot (List.length_eq_zero.mp hx)), hrel]
    simp only [bind, Except.bind, toComparablePath]
    rw [if_pos]
    push_neg at hescape
    exact ⟨hescape.1, hescape.2⟩

/-- C1 witness: resolving `"a/b.png"` under root `"out"` from cwd `"/srv"`
is accepted, and the result extends the resolved root past a separator. -/
theorem claim1_witness :
    toComparablePath ("/srv/out/a/b.png".data) =
        toComparablePath (posixResolve ("/srv".data) [jsTrim ("out".data)]) ∨
      (rootWithSep (toComparablePath (posixResolve ("/srv".data) [jsTrim ("out".data)]))).isPrefixOf
        (toComparablePath ("/srv/out/a/b.png".data)) = true :=
  claim1_resolved_path_confined.1 ("/srv".data) ("out".data) ("a/b.png".data)
    ("/srv/out/a/b.png".data) (by rfl)

/-- C10: `listRunSummaries` is per-run fault tolerant: it equals the
filter-map that keeps exactly the discovered runs whose descriptor loads,
so one failing descriptor removes only its own summary. -/
theorem claim10_broken_runs_skipped (fs : FileSystem) :
    listRunSummaries fs = (discoverRunDirs fs).filterMap
      (fun runDir =>
        match loadRunDetail fs runDir with
        | .ok runDetail => some (mkRunSummary runDetail runDir)
        | .error _ => none) := by
  rw [listRunSummaries]
  induction discoverRunDirs fs with
  | nil => rfl
  | cons runDir rest ih =>
    rw [listRunSummariesLoop, List.filterMap_cons]
    cases loadRunDetail fs runDir with
    | ok d => rw [ih]
    | error e => rw [ih]

/-! ## Grid-assembly lemmas (C4, C7) -/

theorem foldl_grid_eq_pairs (xIndexes yIndexes : List Int) (f : Int → Int → GridCell)
    (init : RecordMap) :
    yIndexes.foldl
      (fun acc yIndex =>
        xIndexes.foldl (fun acc2 xIndex => recordSet acc2 (xIndex, yIndex) (f xIndex yIndex)) acc)
      init =
    (yIndexes.flatMap (fun yIndex =>
        xIndexes.map (fun xIndex => ((xIndex, yIndex), f xIndex yIndex)))).foldl
      (fun m p => recordSet m p.1 p.2) init := by
  induction yIndexes generalizing init with
  | nil => rfl
  | cons y ys ih =>
    rw [List.foldl_cons, List.flatMap_cons, List.foldl_append, ih, List.foldl_map]

theorem foldl_recordSet_fresh (ps : List ((Int × Int) × GridCell)) (acc : RecordMap)
    (hnodup : (ps.map Prod.fst).Nodup)
    (hfresh : ∀ k ∈ ps.map Prod.fst, acc.any (fun q => q.1 == k) = false) :
    ps.foldl (fun m p => recordSet m p.1 p.2) acc = acc ++ ps := by
  induction ps generalizing acc with
  | nil => simp
  | cons p ps ih =>
    rw [List.foldl_cons]
    have hstep : recordSet acc p.1 p.2 = acc ++ [p] := by
      rw [recordSet, hfresh p.1 (by simp), if_neg (by simp)]
    rw [hstep, ih]
    · simp
    · exact (List.nodup_cons.mp (by simpa using hnodup)).2
    · intro k hk
      rw [List.any_append]
      have h1 : acc.any (fun q => q.1 == k) = false :=
        hfresh k (List.mem_cons_of_mem _ hk)
      have h2 : (p.1 == k) = false := by
        rw [beq_eq_false_iff_ne]
        intro hcontra
        exact (List.nodup_cons.mp (by simpa using hnodup)).1 (hcontra ▸ hk)
      simp [h1, h2]

theorem nodup_cross_keys (xs ys : List Int) (hx : xs.Nodup) (hy : ys.Nodup) :
    (ys.flatMap (fun y => xs.map (fun x => ((x, y) : Int × Int)))).Nodup := by
  induction ys with
  | nil => simp
  | cons y ys ih =>
    rw [List.flatMap_cons]
    refine List.Nodup.append ?_ (ih (List.nodup_cons.mp hy).2) ?_
    · exact hx.map (fun a b hab => ((Prod.mk.injEq _ _ _ _).mp hab).1)
    · intro p hp1 hp2
      rw [List.mem_map] at hp1
      obtain ⟨x, -, rfl⟩ := hp1
      rw [List.mem_flatMap] at hp2
      obtain ⟨y', hy', hp2⟩ := hp2
      rw [List.mem_map] at hp2
      obtain ⟨x', -, hx'⟩ := hp2
      exact (List.nodup_cons.mp hy).1
        ((((Prod.mk.injEq _ _ _ _).mp hx'.symm).2).symm ▸ hy')

theorem length_cross (xs ys : List Int) (f : Int → Int → GridCell) :
    (ys.flatMap (fun y => xs.map (fun x => ((x, y), f x y)))).length =
      xs.length * ys.length := by
  induction ys with
  | nil => simp
  | cons y ys ih => simp [List.flatMap_cons, ih, Nat.mul_succ, Nat.add_comm]

/-- The cell map built by `buildGridIndex`, in closed form, when the declared
index lists are duplicate-free. -/
theorem buildGridIndex_cells_eq (runDetail : RunDetail) (cells : RecordMap)
    (hx : runDetail.selection.x_indexes.Nodup)
    (hy : runDetail.selection.y_indexes.Nodup) :
    (buildGridIndex runDetail cells).cells =
      runDetail.selection.y_indexes.flatMap (fun yIndex =>
        runDetail.selection.x_indexes.map (fun xIndex =>
          ((xIndex, yIndex),
            (recordGet cells (xIndex, yIndex)).getD (createMissingCell xIndex yIndex)))) := by
  show (runDetail.selection.y_indexes.foldl _ []) = _
  rw [foldl_grid_eq_pairs]
  rw [foldl_recordSet_fresh _ [] ?_ (fun k _ => rfl), List.nil_append]
  have hkeys :
      (runDetail.selection.y_indexes.flatMap (fun yIndex =>
        runDetail.selection.x_indexes.map (fun xIndex =>
          ((xIndex, yIndex),
            (recordGet cells (xIndex, yIndex)).getD
              (createMissingCell xIndex yIndex))))).map Prod.fst =
      runDetail.selection.y_indexes.flatMap (fun y =>
        runDetail.selection.x_indexes.map (fun x => ((x, y) : Int × Int))) := by
    rw [List.map_flatMap]
    exact List.flatMap_congr (fun y _ => by rw [List.map_map]; rfl)
  rw [hkeys]
  exact nodup_cross_keys _ _ hx hy

/-- A minimal `RunDetail` fixture with the given declared index lists. -/
def testRunDetail (xs ys : List Int) : RunDetail :=
  { run_id := "r".data
    created_at := "t".data
    dry_run := false
    run_dir := []
    x_csv_path := []
    y_csv_path := []
    x_csv_sha256 := []
    y_csv_sha256 := []
    template := []
    base_seed := ⟨0, 0⟩
    seed_strategy := []
    workflow_json_path := []
    workflow_json_sha256 := []
    workflow_status := []
    selected_ksampler_node_id := none
    comfyui_base_url := []
    request_timeout_s := ⟨0, 0⟩
    job_timeout_s := ⟨0, 0⟩
    concurrency := 0
    client_id := none
    selection :=
      { x_indexes := xs
        y_indexes := ys
        x_count := xs.length
        y_count := ys.length
        total_cells := xs.length * ys.length
        x_limit := none
        y_limit := none
        x_indexes_raw := none
        y_indexes_raw := none }
    generation_overrides :=
      { negative_prompt := none
        width := none
        height := none
        batch_size := none
        steps := none
        cfg := none
        denoise := none
        sampler_name := none
        scheduler := none } }

/-- C4 counterexample: a descriptor declaring `x_indexes = [0, 0]` (a
duplicate) and `y_indexes = [0]` yields a grid whose declared counts say
`2 × 1` but whose cell record has a single entry — the keyed record
collapses duplicate coordinates. -/
theorem claim4_counterexample :
    (buildGridIndex (testRunDetail [0, 0] [0]) []).cells.length ≠
      (buildGridIndex (testRunDetail [0, 0] [0]) []).x_count *
        (buildGridIndex (testRunDetail [0, 0] [0]) []).y_count := by decide

/-- C4 (amended): when the declared X and Y index lists are duplicate-free,
the grid's cell record has exactly `x_count × y_count` entries, its keys are
pairwise distinct, and every coordinate of the declared cross product is
present. -/
theorem claim4_amended (runDetail : RunDetail) (cells : RecordMap)
    (hx : runDetail.selection.x_indexes.Nodup)
    (hy : runDetail.selection.y_indexes.Nodup) :
    (buildGridIndex runDetail cells).cells.length =
      (buildGridIndex runDetail cells).x_count * (buildGridIndex runDetail cells).y_count ∧
    ((buildGridIndex runDetail cells).cells.map Prod.fst).Nodup ∧
    (∀ x ∈ runDetail.selection.x_indexes, ∀ y ∈ runDetail.selection.y_indexes,
      (recordGet (buildGridIndex runDetail cells).cells (x, y)).isSome = true) := by
  rw [buildGridIndex_cells_eq runDetail cells hx hy]
  refine ⟨?_, ?_, ?_⟩
  · rw [length_cross]
    rfl
  · have hkeys :
        (runDetail.selection.y_indexes.flatMap (fun yIndex =>
          runDetail.selection.x_indexes.map (fun xIndex =>
            ((xIndex, yIndex),
              (recordGet cells (xIndex, yIndex)).getD
                (createMissingCell xIndex yIndex))))).map Prod.fst =
        runDetail.selection.y_indexes.flatMap (fun y =>
          runDetail.selection.x_indexes.map (fun x => ((x, y) : Int × Int))) := by
      rw [List.map_flatMap]
      exact List.flatMap_congr (fun y _ => by rw [List.map_map]; rfl)
    rw [hkeys]
    exact nodup_cross_keys _ _ hx hy
  · intro x hxm y hym
    rw [recordGet]
    have hmap : ∀ (o : Option ((Int × Int) × GridCell)),
        (o.map (fun p => p.2)).isSome = o.isSome := by
      intro o; cases o <;> rfl
    rw [hmap, List.find?_isSome]
    refine ⟨((x, y), (recordGet cells (x, y)).getD (createMissingCell x y)), ?_, ?_⟩
    · rw [List.mem_flatMap]
      exact ⟨y, hym, List.mem_map.mpr ⟨x, hxm, rfl⟩⟩
    · exact beq_self_eq_true (x, y)

/-- C4 witness: a duplicate-free `2 × 1` declaration over an empty log gives
two entries, distinct keys, and both declared coordinates present. -/
theorem claim4_witness :
    (buildGridIndex (testRunDetail [0, 1] [0]) []).cells.length =
      (buildGridIndex (testRunDetail [0, 1] [0]) []).x_count *
        (buildGridIndex (testRunDetail [0, 1] [0]) []).y_count ∧
    (recordGet (buildGridIndex (testRunDetail [0, 1] [0]) []).cells (1, 0)).isSome = true :=
  ⟨(claim4_amended (testRunDetail [0, 1] [0]) [] (by decide) (by decide)).1,
   (claim4_amended (testRunDetail [0, 1] [0]) [] (by decide) (by decide)).2.2
     1 (by decide) 0 (by decide)⟩

/-! ## Label-derivation lemmas (C7) -/

theorem lookup_append_assoc (l1 l2 : List (Int × GridCell)) (k : Int) :
    (l1 ++ l2).lookup k = ((l1.lookup k).orElse (fun _ => l2.lookup k)) := by
  induction l1 with
  | nil => simp [List.lookup]
  | cons p l1 ih =>
    rw [List.cons_append, List.lookup, List.lookup]
    by_cases hk : k == p.1
    · rw [hk]; rfl
    · rw [Bool.eq_false_iff.mpr hk]
      exact ih

theorem firstByKey_lookup_aux (key : GridCell → Int) (vals : List GridCell)
    (acc : List (Int × GridCell)) (k : Int) :
    (vals.foldl
      (fun m c => if (m.lookup (key c)).isSome then m else m ++ [(key c, c)]) acc).lookup k =
    ((acc.lookup k).orElse (fun _ => vals.find? (fun c => key c == k))) := by
  induction vals generalizing acc with
  | nil =>
    rw [List.foldl_nil, List.find?_nil]
    cases acc.lookup k <;> rfl
  | cons c vals ih =>
    rw [List.foldl_cons]
    by_cases hk : key c = k
    · subst hk
      by_cases hc : (acc.lookup (key c)).isSome
      · rw [if_pos hc, ih,
          List.find?_cons_of_pos (p := fun d => key d == key c) _ (beq_self_eq_true (key c))]
        obtain ⟨b, hb⟩ := Option.isSome_iff_exists.mp hc
        rw [hb]
        rfl
      · rw [if_neg hc, ih, lookup_append_assoc, Option.not_isSome_iff_eq_none.mp hc,
          List.find?_cons_of_pos (p := fun d => key d == key c) _ (beq_self_eq_true (key c))]
        have h1 : List.lookup (key c) [(key c, c)] = some c := by
          rw [List.lookup, beq_self_eq_true (key c)]
        rw [h1]
        rfl
    · have hfc : (key c == k) = false := beq_eq_false_iff_ne.mpr hk
      by_cases hc : (acc.lookup (key c)).isSome
      · rw [if_pos hc, ih,
          List.find?_cons_of_neg (p := fun d => key d == k) _
            (by rw [show ((fun d => key d == k) c) = false from hfc]; exact Bool.false_ne_true)]
      · rw [if_neg hc, ih, lookup_append_assoc,
          List.find?_cons_of_neg (p := fun d => key d == k) _
            (by rw [show ((fun d => key d == k) c) = false from hfc]; exact Bool.false_ne_true)]
        have h1 : List.lookup k [(key c, c)] = none := by
          rw [List.lookup,
            show (k == key c) = false from beq_eq_false_iff_ne.mpr (fun hx => hk hx.symm)]
          rfl
        rw [h1]
        cases acc.lookup k <;> rfl

theorem firstByKey_lookup (key : GridCell → Int) (vals : List GridCell) (k : Int) :
    (firstByKey key vals).lookup k = vals.find? (fun c => key c == k) := by
  rw [firstByKey, firstByKey_lookup_aux]
  rfl

/-- C7 fixture: a cell at the given coordinate whose only descriptive
attribute is `quality`. -/
def qCell (q : Str) (x y : Int) : GridCell :=
  { createMissingCell x y with x_fields := { quality := some q } }

/-- C7 fixture: a record map whose entry order puts the higher complementary
index first. -/
def c7cells : RecordMap :=
  [((0, 5), qCell ("A".data) 0 5), ((0, 1), qCell ("B".data) 0 1)]

/-- Modelled from the spec's claim wording (C7), for the counterexample: the
record among the map's values sharing the X index whose complementary Y
index is lowest. -/
def lowestYRecordForX (cells : RecordMap) (x : Int) : Option GridCell :=
  ((cells.map Prod.snd).filter (fun c => c.x_index == x)).foldl
    (fun best c =>
      match best with
      | none => some c
      | some b => if c.y_index < b.y_index then some c else some b)
    none

/-- C7 counterexample: with two records sharing `x_index = 0` inserted in
the order `y = 5` then `y = 1`, the produced X label comes from the first
record in map order (`"A"`), not from the record with the lowest
complementary index (`"B"`). -/
theorem claim7_counterexample :
    (buildGridIndex (testRunDetail [0] [0]) c7cells).xLabels ≠
      [formatXLabel (lowestYRecordForX c7cells 0) 0] := by decide

/-- C7 (amended): the label-deriving record for an axis value is the first
record in the cell map's entry order with that axis index (for maps built by
`parseMetadataJsonl`, the first occurrence in file order) — not the lowest
complementary index; absent records or empty attributes fall back to the
positional placeholder, as `formatXLabel`/`formatYLabel` state. -/
theorem claim7_amended (runDetail : RunDetail) (cells : RecordMap) :
    (buildGridIndex runDetail cells).xLabels =
      runDetail.selection.x_indexes.map (fun x =>
        formatXLabel ((cells.map Prod.snd).find? (fun c => c.x_index == x)) x) ∧
    (buildGridIndex runDetail cells).yLabels =
      runDetail.selection.y_indexes.map (fun y =>
        formatYLabel ((cells.map Prod.snd).find? (fun c => c.y_index == y)) y) := by
  constructor
  · show runDetail.selection.x_indexes.map _ = _
    exact List.map_congr_left (fun x _ => by rw [firstByKey_lookup])
  · show runDetail.selection.y_indexes.map _ = _
    exact List.map_congr_left (fun y _ => by rw [firstByKey_lookup])

/-! ## Trim and normalization lemmas (C9) -/

theorem dropWhile_eq_self_of_head? (p : Char → Bool) (l : Str)
    (h : ∀ c, l.head? = some c → p c = false) : l.dropWhile p = l := by
  cases l with
  | nil => rfl
  | cons c l =>
    rw [List.dropWhile_cons, if_neg (by rw [h c rfl]; exact Bool.false_ne_true)]

theorem dropWhile_idem (p : Char → Bool) (l : Str) :
    (l.dropWhile p).dropWhile p = l.dropWhile p := by
  refine dropWhile_eq_self_of_head? p _ (fun c hc => ?_)
  have hw := List.head?_dropWhile_not p l
  rw [hc] at hw
  exact hw

theorem head?_of_isPrefix {t u : Str} (hpre : t <+: u) {c : Char}
    (hc : t.head? = some c) : u.head? = some c := by
  obtain ⟨r, hr⟩ := hpre
  rw [← hr, List.head?_append, hc]
  rfl

theorem jsTrim_idem (s : Str) : jsTrim (jsTrim s) = jsTrim s := by
  unfold jsTrim
  have hu : ∀ c, (s.dropWhile isJsWhitespace).head? = some c → isJsWhitespace c = false := by
    intro c hc
    have hw := List.head?_dropWhile_not isJsWhitespace s
    rw [hc] at hw
    exact hw
  have hpre :
      ((s.dropWhile isJsWhitespace).reverse.dropWhile isJsWhitespace).reverse <+:
        s.dropWhile isJsWhitespace := by
    rw [← List.reverse_suffix]
    simpa using List.dropWhile_suffix (l := (s.dropWhile isJsWhitespace).reverse) isJsWhitespace
  have hA :
      (((s.dropWhile isJsWhitespace).reverse.dropWhile isJsWhitespace).reverse).dropWhile
          isJsWhitespace =
        ((s.dropWhile isJsWhitespace).reverse.dropWhile isJsWhitespace).reverse :=
    dropWhile_eq_self_of_head? _ _ (fun c hc => hu c (head?_of_isPrefix hpre hc))
  rw [hA, List.reverse_reverse, dropWhile_idem]

theorem splitOn_getLast_sep (t : Str) (hne : t ≠ []) (hlast : t.getLast? = some '/') :
    (t.splitOn '/').getLast? = some [] := by
  induction t with
  | nil => cases hne rfl
  | cons c t ih =>
    cases t with
    | nil =>
      have hc : c = '/' := by simpa using hlast
      subst hc
      rfl
    | cons d t' =>
      rw [List.getLast?_cons_cons] at hlast
      have ih' := ih (by simp) hlast
      show (List.splitOnP (fun x => x == '/') (c :: d :: t')).getLast? = some []
      obtain ⟨s0, rest, hsr⟩ :
          ∃ s0 rest, List.splitOnP (fun x => x == '/') (d :: t') = s0 :: rest := by
        cases hsp : List.splitOnP (fun x => x == '/') (d :: t') with
        | nil => exact absurd hsp (List.splitOnP_ne_nil _ _)
        | cons s0 rest => exact ⟨s0, rest, rfl⟩
      have ih'' : (s0 :: rest).getLast? = some [] := by
        rw [← hsr]
        exact ih'
      rw [List.splitOnP_cons]
      by_cases hc : c = '/'
      · rw [if_pos (by rw [hc]; rfl), hsr, List.getLast?_cons_cons]
        exact ih''
      · rw [if_neg (by rw [beq_eq_false_iff_ne.mpr hc]; exact Bool.false_ne_true), hsr]
        cases rest with
        | nil =>
          have hs0 : s0 = [] := by simpa using ih''
          subst hs0
          have hInter := List.intercalate_splitOn (d :: t') '/'
          rw [show (d :: t').splitOn '/' = [[]] from hsr] at hInter
          simp [List.intercalate] at hInter
        | cons s1 rest' =>
          show ((c :: s0) :: s1 :: rest').getLast? = some []
          rw [List.getLast?_cons_cons]
          rw [List.getLast?_cons_cons] at ih''
          exact ih''

theorem normSegs_id (allow : Bool) (acc : List Str) (segs : List Str)
    (h : ∀ seg ∈ segs, seg ≠ [] ∧ seg ≠ [ '.'] ∧ seg ≠ [ '.', '.']) :
    normSegs allow acc segs = acc ++ segs := by
  induction segs generalizing acc with
  | nil => simp [normSegs]
  | cons seg rest ih =>
    obtain ⟨h1, h2, h3⟩ := h seg (List.mem_cons_self _ _)
    rw [normSegs, if_neg (not_or.mpr ⟨h1, h2⟩), if_neg h3,
      ih _ (fun sg hsg => h sg (List.mem_cons_of_mem _ hsg))]
    simp

theorem posixNormalize_eq_self (t : Str) (hne : t ≠ [])
    (hsegs : ∀ seg ∈ t.splitOn '/', seg ≠ [] ∧ seg ≠ [ '.'] ∧ seg ≠ [ '.', '.']) :
    posixNormalize t = t := by
  have hhead : (t.head? == some '/') = false := by
    rw [beq_eq_false_iff_ne]
    intro hcontra
    cases t with
    | nil => cases hne rfl
    | cons c t'' =>
      have hc : c = '/' := by simpa using hcontra
      subst hc
      have hmem : ([] : Str) ∈ ('/' :: t'').splitOn '/' := by
        show ([] : Str) ∈ List.splitOnP _ _
        rw [List.splitOnP_cons, if_pos (by rfl)]
        exact List.mem_cons_self _ _
      exact (hsegs [] hmem).1 rfl
  have htrail : (t.getLast? == some '/') = false := by
    rw [beq_eq_false_iff_ne]
    intro hcontra
    exact (hsegs [] (List.mem_of_mem_getLast? (splitOn_getLast_sep t hne hcontra))).1 rfl
  have hns : normalizeString t true = t := by
    rw [normalizeString, normSegs_id _ _ _ hsegs, List.nil_append]
    exact List.intercalate_splitOn t '/'
  rw [posixNormalize, if_neg hne]
  simp only [hhead, htrail, Bool.not_false, hns]
  rw [if_neg hne]
  rfl

/-- C9: the path sanitizer is the identity up to trimming on accepted
inputs — the accepted value is exactly the trimmed candidate (the final
normalization changes nothing) — and is therefore idempotent: running it on
its own output succeeds with the same value. -/
theorem claim9_sanitizer_identity (imagePath r : Str)
    (h : assertSafeRelativeImagePath imagePath = .ok r) :
    r = jsTrim imagePath ∧ assertSafeRelativeImagePath r = .ok r := by
  unfold assertSafeRelativeImagePath assertNonEmptyTrimmed at h
  by_cases hlen : (jsTrim imagePath).length = 0
  · rw [if_pos hlen] at h; cases h
  rw [if_neg hlen] at h
  simp only [bind, Except.bind] at h
  by_cases h1 : (jsTrim imagePath).contains '\x00' = true
  · rw [if_pos h1] at h; cases h
  rw [if_neg h1] at h
  by_cases h2 : (jsTrim imagePath).contains '%' = true
  · rw [if_pos h2] at h; cases h
  rw [if_neg h2] at h
  by_cases h3 : (jsTrim imagePath).contains '\\' = true
  · rw [if_pos h3] at h; cases h
  rw [if_neg h3] at h
  by_cases h4 : (posixIsAbsolute (jsTrim imagePath) || win32IsAbsolute (jsTrim imagePath)) = true
  · rw [if_pos h4] at h; cases h
  rw [if_neg h4] at h
  by_cases h5 : hasWindowsDriveLetter (jsTrim imagePath) = true
  · rw [if_pos h5] at h; cases h
  rw [if_neg h5] at h
  by_cases h6 : ((jsTrim imagePath).splitOn '/').any (fun seg => seg.length = 0) = true
  · rw [if_pos h6] at h; cases h
  rw [if_neg h6] at h
  by_cases h7 : (((jsTrim imagePath).splitOn '/').contains [ '.'] ||
      ((jsTrim imagePath).splitOn '/').contains [ '.', '.']) = true
  · rw [if_pos h7] at h; cases h
  rw [if_neg h7] at h
  by_cases h8 : posixNormalize (jsTrim imagePath) = [ '.'] ∨
      [ '.', '.', '/'].isPrefixOf (posixNormalize (jsTrim imagePath)) = true ∨
      [ '/', '.', '.', '/'] <:+: posixNormalize (jsTrim imagePath)
  · rw [if_pos h8] at h; cases h
  rw [if_neg h8] at h
  have hne : jsTrim imagePath ≠ [] := fun he => hlen (by rw [he]; rfl)
  have hsegs : ∀ seg ∈ (jsTrim imagePath).splitOn '/',
      seg ≠ [] ∧ seg ≠ [ '.'] ∧ seg ≠ [ '.', '.'] := by
    intro seg hmem
    have h7' : ((jsTrim imagePath).splitOn '/').contains [ '.'] = false ∧
        ((jsTrim imagePath).splitOn '/').contains [ '.', '.'] = false := by
      have := Bool.not_eq_true _ ▸ h7
      constructor
      · cases hd : ((jsTrim imagePath).splitOn '/').contains [ '.']
        · rfl
        · exact absurd (by rw [hd]; rfl) h7
      · cases hd : ((jsTrim imagePath).splitOn '/').contains [ '.', '.']
        · rfl
        · exact absurd (by rw [hd, Bool.or_true]) h7
    refine ⟨?_, ?_, ?_⟩
    · intro he
      exact h6 (List.any_eq_true.mpr ⟨seg, hmem, by rw [he]; decide⟩)
    · intro he
      have hel := List.elem_iff.mpr (he ▸ hmem)
      rw [show List.elem [ '.'] ((jsTrim imagePath).splitOn '/') =
          ((jsTrim imagePath).splitOn '/').contains [ '.'] from rfl, h7'.1] at hel
      cases hel
    · intro he
      have hel := List.elem_iff.mpr (he ▸ hmem)
      rw [show List.elem [ '.', '.'] ((jsTrim imagePath).splitOn '/') =
          ((jsTrim imagePath).splitOn '/').contains [ '.', '.'] from rfl, h7'.2] at hel
      cases hel
  have hnorm : posixNormalize (jsTrim imagePath) = jsTrim imagePath :=
    posixNormalize_eq_self _ hne hsegs
  cases h
  rw [hnorm]
  refine ⟨rfl, ?_⟩
  have hjt : jsTrim (jsTrim imagePath) = jsTrim imagePath := jsTrim_idem imagePath
  unfold assertSafeRelativeImagePath assertNonEmptyTrimmed
  rw [hjt, if_neg hlen]
  simp only [bind, Except.bind]
  rw [if_neg h1, if_neg h2, if_neg h3, if_neg h4, if_neg h5, if_neg h6, if_neg h7,
    if_neg h8, hnorm]

/-- C9 witness: the padded candidate `" a/b.png "` is accepted as the
trimmed `"a/b.png"`, and re-sanitizing that output returns it unchanged. -/
theorem claim9_witness :
    ("a/b.png".data : Str) = jsTrim (" a/b.png ".data) ∧
      assertSafeRelativeImagePath ("a/b.png".data) = .ok ("a/b.png".data) :=
  claim9_sanitizer_identity (" a/b.png ".data) ("a/b.png".data) (by rfl)

end SDLab
